import Mathlib

/-!
Shallow embedding of the RAG engine in
`src/backend-express/src/services/ragService.js` (class `RAGService`).

Modelling conventions:
* JavaScript numbers that can become non-finite (NaN from out-of-range array
  access, NaN or infinity from division) are modelled by `JSNum := Option Rat`,
  where `none` stands for a non-finite value (NaN or an infinity) and
  `some q` for the finite value `q`.  `Math.sqrt` is not computable on `Rat`,
  so it is passed as an explicit function parameter; no theorem below depends
  on its values.
* Text is sliced by code point, so document text is `List Char` inside the
  chunker and `String` elsewhere; raw file bytes are `List Nat`.
* The external OpenAI client is modelled by oracle functions (`embed`,
  `complete`, `pdfParse`, `utf8`) passed as parameters; an `Except` result
  models a promise that either resolves or rejects.
* The `Map` used as the in-memory vector store is an association list kept in
  insertion order, matching the iteration order of a JavaScript `Map`.
* `queryDocuments` also returns how many embedding calls and how many chat
  completion calls it performed, so call-count claims can be stated.
-/

/-- JavaScript number that may be non-finite: `none` models NaN or infinity. -/
abbrev JSNum := Option Rat

/-- JavaScript addition on possibly non-finite numbers (non-finite absorbs). -/
def jadd : JSNum → JSNum → JSNum
  | some a, some b => some (a + b)
  | _, _ => none

/-- JavaScript multiplication; `undefined * x` and `NaN * x` are NaN (`none`). -/
def jmul : JSNum → JSNum → JSNum
  | some a, some b => some (a * b)
  | _, _ => none

/-- JavaScript subtraction on possibly non-finite numbers. -/
def jsub : JSNum → JSNum → JSNum
  | some a, some b => some (a - b)
  | _, _ => none

/-- JavaScript division; division by zero yields a non-finite value (`none`),
collapsing the NaN and infinity cases of `x / 0`. -/
def jdiv : JSNum → JSNum → JSNum
  | some a, some b => if b = 0 then none else some (a / b)
  | _, _ => none

/-- `Math.sqrt` lifted to `JSNum`: NaN on a negative argument, otherwise the
given square-root function (left abstract because `Rat` has no square root). -/
def jsqrt (sqrt : Rat → Rat) : JSNum → JSNum
  | some a => if a < 0 then none else some (sqrt a)
  | none => none

/-- Loop body of `cosineSimilarity` (ragService.js lines 138 to 142): for each
index in `is` accumulate `dotProduct`, `normA`, `normB`; an out-of-range read
of `b` gives `undefined`, which poisons the product to NaN. -/
def cosAcc (a b : List Rat) : List Nat → JSNum × JSNum × JSNum → JSNum × JSNum × JSNum
  | [], s => s
  | i :: is, s =>
      cosAcc a b is
        (jadd s.1 (jmul a[i]? b[i]?),
         jadd s.2.1 (jmul a[i]? a[i]?),
         jadd s.2.2 (jmul b[i]? b[i]?))

/-- Embeds `cosineSimilarity(a, b)` (ragService.js lines 133 to 145): loop
`i` from `0` to `a.length - 1`, then `dot / (sqrt(normA) * sqrt(normB))`. -/
def cosineSimilarity (sqrt : Rat → Rat) (a b : List Rat) : JSNum :=
  let s := cosAcc a b (List.range a.length) (some 0, some 0, some 0)
  jdiv s.1 (jmul (jsqrt sqrt s.2.1) (jsqrt sqrt s.2.2))

/-- Iterations of the `while (start < text.length)` loop of `splitIntoChunks`
(ragService.js lines 97 to 104), rebased so that the current `start` is the
head of the remaining list: the emitted chunk is `text.slice(start, start +
chunkSize)` and the next start is `start + (chunkSize - chunkOverlap)`.  The
fuel argument only bounds the number of iterations; `splitIntoChunks` passes
`text.length`, which is never exhausted when `overlap < size` (each step drops
at least one character from a nonempty remainder). -/
def chunkStep (S O : Nat) : Nat → List Char → List (List Char)
  | 0, _ => []
  | _ + 1, [] => []
  | fuel + 1, a :: l =>
      (a :: l).take S :: chunkStep S O fuel ((a :: l).drop (S - O))

/-- Embeds `splitIntoChunks(text)` with chunk size `S` and overlap `O`
(`this.chunkSize` and `this.chunkOverlap` from config). -/
def splitIntoChunks (S O : Nat) (text : List Char) : List (List Char) :=
  chunkStep S O text.length text

/-- JavaScript `string.split` on a single-character separator, by code point:
`""` splits to `[""]`, and separators at the ends produce empty fields, as in
ECMAScript. -/
def splitOnChar (sep : Char) : List Char → List (List Char)
  | [] => [[]]
  | c :: cs =>
    if c = sep then [] :: splitOnChar sep cs
    else
      match splitOnChar sep cs with
      | [] => [[c]]
      | h :: t => (c :: h) :: t

/-- JavaScript `string.trim`: whitespace stripped from both ends.  Modelled
with `Char.isWhitespace`, which agrees with the ECMAScript whitespace set on
the ASCII characters. -/
def jsTrim (s : String) : String :=
  String.mk (((s.data.dropWhile Char.isWhitespace).reverse.dropWhile
    Char.isWhitespace).reverse)

/-- Extensions treated as plain text by the `switch` in `extractText`
(ragService.js lines 54 to 75). -/
def plainTextExtensions : List String :=
  ["txt", "md", "markdown", "py", "js", "ts", "jsx", "tsx", "json", "yaml",
   "yml", "html", "css", "xml", "csv", "sql", "sh", "bash", "env",
   "gitignore", "dockerfile"]

/-- The dispatch key `filename.toLowerCase().split('.').pop()` (line 46). -/
def fileExtension (filename : String) : String :=
  String.mk ((splitOnChar '.' (filename.data.map Char.toLower)).getLastD [])

/-- Embeds `extractText(content, filename)` (ragService.js lines 45 to 86):
dispatch on the lowercased extension; the pdf branch uses the structured
parser, every other branch decodes UTF-8; the surrounding `try`/`catch` turns
any parser rejection into a best-effort UTF-8 decode of the raw bytes. -/
def extractText (pdfParse : List Nat → Except String String)
    (utf8 : List Nat → String) (content : List Nat) (filename : String) :
    Except String String :=
  match (if fileExtension filename = "pdf" then pdfParse content
         else if fileExtension filename ∈ plainTextExtensions then .ok (utf8 content)
         else .ok (utf8 content) : Except String String) with
  | .ok t => .ok t
  | .error _ => .ok (utf8 content)

/-- Metadata copied onto each chunk: the caller metadata spread plus the
`filename` and `blobId` fields added by `processDocument` (lines 193 to 197). -/
structure Meta where
  extra : List (String × String)
  filename : String
  blobId : String
deriving DecidableEq

/-- One stored chunk record (ragService.js lines 189 to 198). -/
structure Chunk where
  chunkIndex : Nat
  text : List Char
  embedding : List Rat
  metadata : Meta
deriving DecidableEq

/-- The in-memory vector store `Map<blobId, chunks>` as an association list in
insertion order. -/
abbrev Store := List (String × List Chunk)

/-- `Map.get`: the first (unique) entry with the given key. -/
def storeGet (store : Store) (k : String) : Option (List Chunk) :=
  (store.find? (fun p => p.1 == k)).map (fun p => p.2)

/-- `Map.set`: replace in place when the key is present, else append,
preserving the insertion order of a JavaScript `Map`. -/
def storeSet (store : Store) (k : String) (v : List Chunk) : Store :=
  if store.any (fun p => p.1 == k) then
    store.map (fun p => if p.1 == k then (k, v) else p)
  else
    store ++ [(k, v)]

/-- `Map.values()` in insertion order. -/
def storeValues (store : Store) : List (List Chunk) :=
  store.map (fun p => p.2)

/-- Result object of `processDocument` (ragService.js lines 155 to 222). -/
structure IngestResult where
  success : Bool
  blobId : String
  chunksCreated : Nat
  textLength : Nat
  error : Option String
deriving DecidableEq

/-- The sequential per-chunk embedding loop of `processDocument` (lines 184 to
199): the first rejected `getEmbedding` call aborts the whole loop. -/
def embedChunks (embed : String → Except String (List Rat)) :
    List (List Char) → Except String (List (List Rat))
  | [] => .ok []
  | c :: cs =>
    match embed (String.mk c) with
    | .error e => .error e
    | .ok v =>
      match embedChunks embed cs with
      | .error e => .error e
      | .ok vs => .ok (v :: vs)

/-- Builds the `documentChunks` array (lines 189 to 198): index, text,
embedding, and denormalized metadata. -/
def buildDocChunks (blobId filename : String) (extraMeta : List (String × String))
    (chunks : List (List Char)) (embs : List (List Rat)) : List Chunk :=
  (chunks.zip embs).enum.map
    (fun p => ⟨p.1, p.2.1, p.2.2, ⟨extraMeta, filename, blobId⟩⟩)

/-- Embeds `processDocument(blobId, content, filename, metadata)`
(ragService.js lines 155 to 222).  Returns the result object together with
the store after the call; every failure path leaves the store untouched, and
`vectorStore.set` runs only after the embedding loop finished. -/
def processDocument (S O : Nat) (available : Bool)
    (embed : String → Except String (List Rat))
    (pdfParse : List Nat → Except String String) (utf8 : List Nat → String)
    (store : Store) (blobId : String) (content : List Nat) (filename : String)
    (extraMeta : List (String × String)) : IngestResult × Store :=
  if available = false then
    (⟨false, blobId, 0, 0, some "RAG Service not available"⟩, store)
  else
    match extractText pdfParse utf8 content filename with
    | .error e => (⟨false, blobId, 0, 0, some e⟩, store)
    | .ok text =>
      if text = "" ∨ jsTrim text = "" then
        (⟨false, blobId, 0, 0, some "No text content extracted"⟩, store)
      else
        let chunks := splitIntoChunks S O text.data
        match embedChunks embed chunks with
        | .error e => (⟨false, blobId, 0, 0, some e⟩, store)
        | .ok embs =>
            (⟨true, blobId, chunks.length, text.length, none⟩,
             storeSet store blobId (buildDocChunks blobId filename extraMeta chunks embs))

/-- One entry of the `sources` array built by `queryDocuments`
(ragService.js lines 308 to 313). -/
structure SourceEntry where
  blobId : String
  excerpt : List Char
  chunkIndex : Nat
  score : JSNum
deriving DecidableEq

/-- Successful return value of `queryDocuments` (lines 315 to 319). -/
structure QueryOk where
  answer : String
  sources : List SourceEntry
  question : String
deriving DecidableEq

/-- Decidable equality for `Except`, needed to evaluate outcome equalities in
concrete counterexamples. -/
instance {ε α : Type} [DecidableEq ε] [DecidableEq α] : DecidableEq (Except ε α) :=
  fun a b =>
  match a, b with
  | .error e, .error f =>
      if h : e = f then .isTrue (congrArg Except.error h)
      else .isFalse (fun hh => h (Except.error.inj hh))
  | .ok x, .ok y =>
      if h : x = y then .isTrue (congrArg Except.ok h)
      else .isFalse (fun hh => h (Except.ok.inj hh))
  | .error _, .ok _ => .isFalse (fun hh => Except.noConfusion hh)
  | .ok _, .error _ => .isFalse (fun hh => Except.noConfusion hh)

/-- Observable outcome of one `queryDocuments` call: the returned value or
thrown error, plus how many provider calls were made. -/
structure QueryOutcome where
  result : Except String QueryOk
  embedCalls : Nat
  completionCalls : Nat
deriving DecidableEq

/-- Candidate gathering (ragService.js lines 242 to 257): a non-null,
nonempty `documentIds` array selects the listed documents in the given order,
silently skipping absent ids; otherwise every chunk of every document is a
candidate, in insertion order. -/
def gatherChunks (store : Store) (documentIds : Option (List String)) : List Chunk :=
  match documentIds with
  | some ids =>
      if ids.length > 0 then
        (ids.map (fun id => (storeGet store id).getD [])).flatten
      else
        (storeValues store).flatten
  | none => (storeValues store).flatten

/-- The value of the JavaScript comparator `(a, b) => b.score - a.score` as
used by `Array.prototype.sort`: a NaN comparator result is treated as `+0`
(the ECMAScript SortCompare rule), hence `getD 0`. -/
def jsCmp (x y : Chunk × JSNum) : Rat :=
  (jsub y.2 x.2).getD 0

/-- Insertion step of a stable sort consistent with the ECMAScript contract
for `Array.prototype.sort`: the earlier element `x` stays in front of `y`
unless the comparator says `x` must come after `y`. -/
def jsInsert (x : Chunk × JSNum) : List (Chunk × JSNum) → List (Chunk × JSNum)
  | [] => [x]
  | y :: ys => if jsCmp x y ≤ 0 then x :: y :: ys else y :: jsInsert x ys

/-- Embeds `scoredChunks.sort((a, b) => b.score - a.score)` (line 274):
a stable sort by descending score. -/
def jsSortScored (l : List (Chunk × JSNum)) : List (Chunk × JSNum) :=
  l.foldr jsInsert []

/-- Embeds sort plus `slice(0, topK)` (lines 274 to 275). -/
def topKChunks (scored : List (Chunk × JSNum)) (k : Nat) : List (Chunk × JSNum) :=
  (jsSortScored scored).take k

/-- Finite score of a scored chunk (the sort theorems assume all scores are
finite, in which case `getD` is just the value). -/
def scoreVal (p : Chunk × JSNum) : Rat :=
  p.2.getD 0

/-- Excerpt building (line 310): first 200 characters plus an ellipsis marker
when truncated. -/
def mkExcerpt (t : List Char) : List Char :=
  t.take 200 ++ (if 200 < t.length then String.data "..." else [])

/-- An apostrophe character, spelled by code point. -/
def apos : String := String.singleton (Char.ofNat 39)

/-- The canned answer returned when no candidate chunks exist (line 261). -/
def cannedAnswer : String :=
  "I don" ++ apos ++ "t have any documents to search. Please upload some documents first."

/-- The fixed system prompt (lines 283 to 286). -/
def systemPromptText : String :=
  "You are a helpful assistant that answers questions based on the provided document context.\nUse only the information from the context to answer the question.\nIf the context doesn" ++ apos ++ "t contain enough information to answer the question, say so.\nAlways cite your sources by referring to [Source N] when using information from the context."

/-- The grounding block (lines 278 to 280): chunks labeled in rank order,
joined by blank lines. -/
def contextFrom (topChunks : List (Chunk × JSNum)) : String :=
  String.intercalate "\n\n"
    (topChunks.enum.map
      (fun p => "[Source " ++ toString (p.1 + 1) ++ "]: " ++ String.mk p.2.1.text))

/-- The user prompt (lines 288 to 293). -/
def userPromptText (context question : String) : String :=
  "Context:\n" ++ context ++ "\n\nQuestion: " ++ question ++ "\n\nPlease provide a comprehensive answer based on the context above."

/-- Embeds `queryDocuments(question, documentIds, topK)` (ragService.js lines
231 to 320).  `topK = topK || this.topK` means a missing or zero `topK` falls
back to the configured default (zero is falsy in JavaScript).  The outcome
records the provider calls actually made. -/
def queryDocuments (sqrt : Rat → Rat) (embed : String → Except String (List Rat))
    (complete : String → String → Except String String)
    (available : Bool) (defaultTopK : Nat) (store : Store)
    (question : String) (documentIds : Option (List String))
    (topK : Option Nat) : QueryOutcome :=
  if available = false then
    ⟨.error "RAG Service not available", 0, 0⟩
  else
    let k := match topK with
      | none => defaultTopK
      | some 0 => defaultTopK
      | some (n + 1) => n + 1
    match embed question with
    | .error e => ⟨.error e, 1, 0⟩
    | .ok questionEmbedding =>
      let allChunks := gatherChunks store documentIds
      if allChunks.length = 0 then
        ⟨.ok ⟨cannedAnswer, [], question⟩, 1, 0⟩
      else
        let scoredChunks := allChunks.map
          (fun c => (c, cosineSimilarity sqrt questionEmbedding c.embedding))
        let topChunks := topKChunks scoredChunks k
        let context := contextFrom topChunks
        match complete systemPromptText (userPromptText context question) with
        | .error e => ⟨.error e, 1, 1⟩
        | .ok answer =>
            ⟨.ok ⟨answer,
              topChunks.map (fun p =>
                ⟨p.1.metadata.blobId, mkExcerpt p.1.text, p.1.chunkIndex, p.2⟩),
              question⟩, 1, 1⟩

/-- Embeds `deleteDocument(blobId)` (ragService.js lines 327 to 337). -/
def deleteDocument (store : Store) (blobId : String) :
    (Bool × Nat) × Store :=
  ((true, ((storeGet store blobId).map List.length).getD 0),
   store.filter (fun p => !(p.1 == blobId)))

/-- Concatenation of the chunks with the overlapping prefix of every chunk
after the first removed; following the wording of the spec on reconstruction
of the original text. -/
def reassemble (O : Nat) (chunks : List (List Char)) : List Char :=
  match chunks with
  | [] => []
  | c :: rest => c ++ (rest.map (List.drop O)).flatten

/-- The chunk loop on an empty remainder emits nothing, for any fuel. -/
theorem chunkStep_nil (S O fuel : Nat) : chunkStep S O fuel [] = [] := by
  cases fuel <;> rfl

/-- Chunk count of the loop: with overlap below size and enough fuel, the
number of emitted chunks is the number of loop starts below the text length,
which is the ceiling of length over stride. -/
theorem chunkStep_length (S O : Nat) (hO : O < S) :
    ∀ (fuel : Nat) (l : List Char), l.length ≤ fuel →
      (chunkStep S O fuel l).length = (l.length + (S - O) - 1) / (S - O) := by
  intro fuel
  induction fuel with
  | zero =>
    intro l hl
    have hnil : l = [] := List.eq_nil_of_length_eq_zero (by omega)
    subst hnil
    simp only [chunkStep, List.length_nil]
    rw [Nat.div_eq_of_lt (by omega)]
  | succ n ih =>
    intro l hl
    match l with
    | [] =>
      simp only [chunkStep_nil, List.length_nil]
      rw [Nat.div_eq_of_lt (by omega)]
    | a :: t =>
      have hd : 0 < S - O := by omega
      have hlen : ((a :: t).drop (S - O)).length = (a :: t).length - (S - O) :=
        List.length_drop _ _
      simp only [List.length_cons] at hl hlen
      simp only [chunkStep, List.length_cons]
      rw [ih _ (by rw [hlen]; omega), hlen]
      rcases le_or_lt (S - O) (t.length + 1) with h | h
      · have e1 : t.length + 1 - (S - O) + (S - O) - 1 = t.length := by omega
        have e2 : t.length + 1 + (S - O) - 1 = t.length + (S - O) := by omega
        rw [e1, e2, Nat.add_div_right _ hd]
      · have e1 : t.length + 1 - (S - O) + (S - O) - 1 = (S - O) - 1 := by omega
        have e2 : t.length + 1 + (S - O) - 1 = t.length + (S - O) := by omega
        rw [e1, e2, Nat.add_div_right _ hd, Nat.div_eq_of_lt (by omega),
          Nat.div_eq_of_lt (by omega)]

/-- Dropping the overlap from every chunk and concatenating recovers the text
with its first overlap-many characters removed. -/
theorem chunkStep_drop_flatten (S O : Nat) (hO : O < S) :
    ∀ (fuel : Nat) (l : List Char), l.length ≤ fuel →
      ((chunkStep S O fuel l).map (List.drop O)).flatten = l.drop O := by
  intro fuel
  induction fuel with
  | zero =>
    intro l hl
    have hnil : l = [] := List.eq_nil_of_length_eq_zero (by omega)
    subst hnil
    simp [chunkStep]
  | succ n ih =>
    intro l hl
    match l with
    | [] => simp [chunkStep_nil]
    | a :: t =>
      simp only [chunkStep, List.map_cons, List.flatten_cons]
      rw [ih _ (by rw [List.length_drop]; simp only [List.length_cons] at hl ⊢; omega)]
      rw [List.drop_take, List.drop_drop]
      have e1 : S - O + O = O + (S - O) := by omega
      rw [e1, ← List.drop_drop]
      exact List.take_append_drop _ _

/-- The last chunk emitted by the loop is a suffix of the text, i.e. its end
offset equals the text length. -/
theorem chunkStep_getLast_suffix (S O : Nat) (hO : O < S) :
    ∀ (fuel : Nat) (l : List Char), l.length ≤ fuel → l ≠ [] →
      ∃ c, (chunkStep S O fuel l).getLast? = some c ∧ c <:+ l := by
  intro fuel
  induction fuel with
  | zero =>
    intro l hl hne
    exact absurd (List.eq_nil_of_length_eq_zero (by omega)) hne
  | succ n ih =>
    intro l hl hne
    match l with
    | [] => exact absurd rfl hne
    | a :: t =>
      simp only [List.length_cons] at hl
      by_cases hdrop : (a :: t).drop (S - O) = []
      · have hr : chunkStep S O n ((a :: t).drop (S - O)) = [] := by
          rw [hdrop]; exact chunkStep_nil _ _ _
        refine ⟨(a :: t).take S, ?_, ?_⟩
        · simp [chunkStep, hr]
        · have hle : (a :: t).length ≤ S := by
            have h0 : (a :: t).length - (S - O) = 0 := by
              have := List.length_drop (S - O) (a :: t)
              rw [hdrop] at this
              simpa using this.symm
            simp only [List.length_cons] at h0 ⊢
            omega
          rw [List.take_of_length_le hle]
      · obtain ⟨c, hc, hsuf⟩ := ih _ (by rw [List.length_drop]; simp only [List.length_cons]; omega) hdrop
        refine ⟨c, ?_, hsuf.trans (List.drop_suffix _ _)⟩
        simp only [chunkStep]
        cases hrest : chunkStep S O n ((a :: t).drop (S - O)) with
        | nil => rw [hrest] at hc; simp at hc
        | cons r rs =>
          rw [List.getLast?_cons_cons, ← hrest]
          exact hc

/-- Chunking a text no longer than the stride (size minus overlap) yields the
single chunk equal to the whole text. -/
theorem chunker_single_chunk_amended (S O : Nat) (l : List Char)
    (h1 : 0 < l.length) (h2 : l.length ≤ S - O) :
    splitIntoChunks S O l = [l] := by
  match l with
  | [] => simp at h1
  | a :: t =>
    show chunkStep S O ((a :: t).length) (a :: t) = [a :: t]
    simp only [List.length_cons, chunkStep]
    rw [List.take_of_length_le (le_trans h2 (Nat.sub_le S O)),
      List.drop_eq_nil_of_le h2, chunkStep_nil]

/-- Witness for the amended single-chunk property at a concrete input. -/
theorem chunker_single_chunk_amended_witness :
    0 < ([ 'a' ] : List Char).length ∧ ([ 'a' ] : List Char).length ≤ 4 - 2 ∧
      splitIntoChunks 4 2 [ 'a' ] = [[ 'a' ]] :=
  ⟨by decide, by decide, chunker_single_chunk_amended 4 2 [ 'a' ] (by decide) (by decide)⟩

/-- The claim as stated is false: with chunk size 4 and overlap 2 the text
"abc" has length 3, at most the chunk size and positive, yet the chunker
emits two chunks (the loop restarts at offset 2, which is still below the
text length, and emits the redundant tail slice). -/
theorem chunker_single_chunk_cex :
    2 < 4 ∧ 0 < ([ 'a', 'b', 'c' ] : List Char).length ∧
      ([ 'a', 'b', 'c' ] : List Char).length ≤ 4 ∧
      splitIntoChunks 4 2 [ 'a', 'b', 'c' ] = [[ 'a', 'b', 'c' ], [ 'c' ]] ∧
      splitIntoChunks 4 2 [ 'a', 'b', 'c' ] ≠ [[ 'a', 'b', 'c' ]] := by
  decide

/-- The stated chunk-count formula is false: for length 5, size 3, overlap 1
the code produces 3 chunks but ceil((L - O) / (S - O)) = ceil(4 / 2) = 2. -/
theorem chunker_count_formula_cex :
    1 < 3 ∧ 0 < ([ 'a', 'b', 'c', 'd', 'e' ] : List Char).length ∧
      (splitIntoChunks 3 1 [ 'a', 'b', 'c', 'd', 'e' ]).length = 3 ∧
      (5 - 1 + (3 - 1) - 1) / (3 - 1) = 2 := by
  decide

/-- Amended chunking property: for any text of positive length L, size S and
overlap O with O < S, the chunk count is ceil(L / (S - O)) (not
ceil((L - O) / (S - O))), the last chunk ends exactly at offset L (it is a
suffix of the text), and concatenating the chunks after removing the
overlap-long prefix of every chunk but the first reconstructs the text. -/
theorem chunker_count_suffix_reconstruct (S O : Nat) (l : List Char)
    (hO : O < S) (hL : 0 < l.length) :
    (splitIntoChunks S O l).length = (l.length + (S - O) - 1) / (S - O) ∧
    (∃ c, (splitIntoChunks S O l).getLast? = some c ∧ c <:+ l) ∧
    reassemble O (splitIntoChunks S O l) = l := by
  refine ⟨chunkStep_length S O hO l.length l le_rfl, ?_, ?_⟩
  · exact chunkStep_getLast_suffix S O hO l.length l le_rfl
      (by intro h; rw [h] at hL; simp at hL)
  · match l with
    | [] => simp at hL
    | a :: t =>
      show reassemble O (chunkStep S O ((a :: t).length) (a :: t)) = a :: t
      simp only [List.length_cons, chunkStep, reassemble]
      rw [chunkStep_drop_flatten S O hO t.length ((a :: t).drop (S - O))
        (by rw [List.length_drop]; simp only [List.length_cons]; omega)]
      rw [List.drop_drop]
      have e1 : S - O + O = S := by omega
      rw [e1]
      exact List.take_append_drop _ _

/-- Witness for the amended chunking property at length 5, size 3, overlap 1:
chunks are "abc", "cde", "e". -/
theorem chunker_count_suffix_reconstruct_witness :
    1 < 3 ∧ 0 < ([ 'a', 'b', 'c', 'd', 'e' ] : List Char).length ∧
      ((splitIntoChunks 3 1 [ 'a', 'b', 'c', 'd', 'e' ]).length =
          (5 + (3 - 1) - 1) / (3 - 1) ∧
        (∃ c, (splitIntoChunks 3 1 [ 'a', 'b', 'c', 'd', 'e' ]).getLast? = some c ∧
          c <:+ [ 'a', 'b', 'c', 'd', 'e' ]) ∧
        reassemble 1 (splitIntoChunks 3 1 [ 'a', 'b', 'c', 'd', 'e' ]) =
          [ 'a', 'b', 'c', 'd', 'e' ]) :=
  ⟨by decide, by decide,
    chunker_count_suffix_reconstruct 3 1 [ 'a', 'b', 'c', 'd', 'e' ] (by decide) (by decide)⟩

/-- Text extraction is total: the catch-all around the extension switch means
`extractText` always resolves, falling back to the UTF-8 decode of the raw
bytes whenever the structured PDF parser rejects and for every extension
outside the known set. -/
theorem extractText_total_with_fallback
    (pdfParse : List Nat → Except String String) (utf8 : List Nat → String)
    (content : List Nat) (filename : String) :
    ((extractText pdfParse utf8 content filename).isOk = true) ∧
    ((pdfParse content).isOk = false →
      extractText pdfParse utf8 content filename = .ok (utf8 content)) ∧
    (fileExtension filename ∉ ("pdf" :: plainTextExtensions) →
      extractText pdfParse utf8 content filename = .ok (utf8 content)) := by
  refine ⟨?_, ?_, ?_⟩
  · unfold extractText
    split <;> rfl
  · intro hfail
    unfold extractText
    by_cases hpdf : fileExtension filename = "pdf"
    · rw [if_pos hpdf]
      cases hp : pdfParse content with
      | ok t => rw [hp] at hfail; simp [Except.isOk, Except.toBool] at hfail
      | error e => rfl
    · rw [if_neg hpdf, ite_self]
  · intro hout
    have h1 : ¬ fileExtension filename = "pdf" :=
      fun h => hout (by rw [h]; exact List.mem_cons_self _ _)
    unfold extractText
    rw [if_neg h1, ite_self]

/-- Witness: a pdf file whose parser rejects still extracts, with the UTF-8
fallback. -/
theorem extractText_total_with_fallback_witness :
    (((fun (_ : List Nat) => (Except.error "bad pdf" : Except String String)) [1, 2]).isOk = false) ∧
      extractText (fun _ => Except.error "bad pdf") (fun _ => "fallback") [1, 2] "Doc.PDF" =
        .ok "fallback" :=
  ⟨by decide,
    (extractText_total_with_fallback (fun _ => Except.error "bad pdf")
      (fun _ => "fallback") [1, 2] "Doc.PDF").2.1 (by decide)⟩

/-- If the embedding oracle rejects some chunk of the list, the sequential
embedding loop rejects as a whole. -/
theorem embedChunks_error_of_mem (embed : String → Except String (List Rat))
    (chunks : List (List Char))
    (h : ∃ c ∈ chunks, (embed (String.mk c)).isOk = false) :
    ∃ e, embedChunks embed chunks = .error e := by
  induction chunks with
  | nil => obtain ⟨c, hc, _⟩ := h; cases hc
  | cons c cs ih =>
    obtain ⟨c0, hc0, hfail⟩ := h
    rcases List.mem_cons.mp hc0 with h0 | h0
    · subst h0
      cases he : embed (String.mk c0) with
      | ok v => rw [he] at hfail; simp [Except.isOk, Except.toBool] at hfail
      | error e => exact ⟨e, by simp [embedChunks, he]⟩
    · obtain ⟨e, he2⟩ := ih ⟨c0, h0, hfail⟩
      cases he : embed (String.mk c) with
      | error e1 => exact ⟨e1, by simp [embedChunks, he]⟩
      | ok v => exact ⟨e, by simp [embedChunks, he, he2]⟩

/-- Ingestion is atomic with respect to embedding failures: when processing
reaches the embedding loop and the provider rejects any chunk, the vector
store is returned unchanged (the single `set` only runs after the whole loop
finished) and the result reports failure with zero chunks created. -/
theorem ingest_aborts_atomically_on_embed_failure
    (S O : Nat) (embed : String → Except String (List Rat))
    (pdfParse : List Nat → Except String String) (utf8 : List Nat → String)
    (store : Store) (blobId : String) (content : List Nat) (filename : String)
    (extraMeta : List (String × String)) (t : String)
    (ht : extractText pdfParse utf8 content filename = .ok t)
    (hne : ¬(t = "" ∨ jsTrim t = ""))
    (hfail : ∃ c ∈ splitIntoChunks S O t.data, (embed (String.mk c)).isOk = false) :
    (processDocument S O true embed pdfParse utf8 store blobId content filename extraMeta).2 =
        store ∧
    (processDocument S O true embed pdfParse utf8 store blobId content filename extraMeta).1.success =
        false ∧
    (processDocument S O true embed pdfParse utf8 store blobId content filename extraMeta).1.chunksCreated =
        0 := by
  obtain ⟨e, he⟩ := embedChunks_error_of_mem embed _ hfail
  simp [processDocument, ht, hne, he]

/-- Witness: with an embedding oracle that always rejects, ingesting a text
file leaves the (empty) store empty and reports failure with zero chunks. -/
theorem ingest_aborts_atomically_on_embed_failure_witness :
    (extractText (fun _ => Except.error "x") (fun _ => "hello") [] "a.txt" = .ok "hello") ∧
    (¬("hello" = "" ∨ jsTrim "hello" = "")) ∧
    (∃ c ∈ splitIntoChunks 4 2 ("hello" : String).data,
      (((fun _ => (Except.error "boom" : Except String (List Rat)))) (String.mk c)).isOk = false) ∧
    ((processDocument 4 2 true (fun _ => Except.error "boom") (fun _ => Except.error "x")
        (fun _ => "hello") [] "b1" [] "a.txt" []).2 = [] ∧
      (processDocument 4 2 true (fun _ => Except.error "boom") (fun _ => Except.error "x")
        (fun _ => "hello") [] "b1" [] "a.txt" []).1.success = false ∧
      (processDocument 4 2 true (fun _ => Except.error "boom") (fun _ => Except.error "x")
        (fun _ => "hello") [] "b1" [] "a.txt" []).1.chunksCreated = 0) :=
  ⟨by decide, by decide, by decide,
    ingest_aborts_atomically_on_embed_failure 4 2 (fun _ => Except.error "boom")
      (fun _ => Except.error "x") (fun _ => "hello") [] "b1" [] "a.txt" [] "hello"
      (by decide) (by decide) (by decide)⟩

/-- Invariant of the vector store: every stored chunk has nonempty text. -/
def storeTextsNonempty (store : Store) : Prop :=
  ∀ p ∈ store, ∀ c ∈ p.2, c.text ≠ []

/-- Every chunk the loop emits is nonempty when the chunk size is positive. -/
theorem chunkStep_mem_ne_nil (S O : Nat) (hS : 0 < S) :
    ∀ (fuel : Nat) (l : List Char) (c : List Char),
      c ∈ chunkStep S O fuel l → c ≠ [] := by
  intro fuel
  induction fuel with
  | zero => intro l c hc; cases hc
  | succ n ih =>
    intro l c hc
    match l with
    | [] => cases hc
    | a :: t =>
      rcases List.mem_cons.mp hc with h | h
      · subst h
        match S, hS with
        | S' + 1, _ => simp [List.take_cons]
      · exact ih _ _ h

/-- Members of the store after a `set` are either old entries or the new
binding. -/
theorem storeSet_mem (store : Store) (k : String) (v : List Chunk)
    (p : String × List Chunk) (hp : p ∈ storeSet store k v) :
    p ∈ store ∨ p = (k, v) := by
  unfold storeSet at hp
  split at hp
  · rcases List.mem_map.mp hp with ⟨q, hq, heq⟩
    by_cases hk : q.1 == k
    · right; rw [if_pos hk] at heq; exact heq.symm
    · left; rw [if_neg hk] at heq; exact heq ▸ hq
  · rcases List.mem_append.mp hp with h | h
    · exact Or.inl h
    · right; simpa using h
/-- The text of every chunk built for a document is one of the text chunks. -/
theorem buildDocChunks_text_mem (blobId filename : String)
    (extraMeta : List (String × String)) (chunks : List (List Char))
    (embs : List (List Rat)) (c : Chunk)
    (hc : c ∈ buildDocChunks blobId filename extraMeta chunks embs) :
    c.text ∈ chunks := by
  unfold buildDocChunks at hc
  rcases List.mem_map.mp hc with ⟨p, hp, heq⟩
  rcases p with ⟨i, x, y⟩
  have h2 : (x, y) ∈ chunks.zip embs := by
    have hmap := List.mem_map_of_mem Prod.snd hp
    rw [List.enum_map_snd] at hmap
    exact hmap
  rw [← heq]
  exact (List.of_mem_zip h2).1

/-- Ingestion of empty or whitespace-only extracted text fails with zero
chunks, a reported error, and an untouched store; and the store never gains a
chunk with empty text: ingestion preserves the all-chunks-nonempty invariant
for every positive chunk size. -/
theorem ingest_rejects_empty_text
    (S O : Nat) (embed : String → Except String (List Rat))
    (pdfParse : List Nat → Except String String) (utf8 : List Nat → String)
    (store : Store) (blobId : String) (content : List Nat) (filename : String)
    (extraMeta : List (String × String)) (t : String)
    (ht : extractText pdfParse utf8 content filename = .ok t)
    (hempty : jsTrim t = "") :
    processDocument S O true embed pdfParse utf8 store blobId content filename extraMeta =
      (⟨false, blobId, 0, 0, some "No text content extracted"⟩, store) ∧
    (∀ (S2 O2 : Nat) (avail : Bool) (embed2 : String → Except String (List Rat))
      (pdfParse2 : List Nat → Except String String) (utf82 : List Nat → String)
      (store2 : Store) (blobId2 : String) (content2 : List Nat) (filename2 : String)
      (extraMeta2 : List (String × String)),
      0 < S2 → storeTextsNonempty store2 →
      storeTextsNonempty
        (processDocument S2 O2 avail embed2 pdfParse2 utf82 store2 blobId2 content2
          filename2 extraMeta2).2) := by
  constructor
  · simp [processDocument, ht, Or.inr hempty]
  · intro S2 O2 avail embed2 pdfParse2 utf82 store2 blobId2 content2 filename2
      extraMeta2 hS2 hinv
    cases avail with
    | false => simpa [processDocument] using hinv
    | true =>
      simp only [processDocument]
      cases hE : extractText pdfParse2 utf82 content2 filename2 with
      | error e => simpa using hinv
      | ok t2 =>
        by_cases hcond : (t2 = "" ∨ jsTrim t2 = "")
        · simp only [if_pos hcond]
          simpa using hinv
        · simp only [if_neg hcond]
          cases hEmb : embedChunks embed2 (splitIntoChunks S2 O2 t2.data) with
          | error e => simpa using hinv
          | ok embs =>
            simp only []
            intro p hp c hc
            rcases storeSet_mem _ _ _ _ hp with h | h
            · exact hinv p h c hc
            · subst h
              have htext := buildDocChunks_text_mem blobId2 filename2 extraMeta2
                (splitIntoChunks S2 O2 t2.data) embs c hc
              exact chunkStep_mem_ne_nil S2 O2 hS2 _ _ _ htext

/-- Witness: whitespace-only extracted text is rejected, and the invariant
holds concretely after rejection. -/
theorem ingest_rejects_empty_text_witness :
    (extractText (fun _ => Except.error "x") (fun _ => "  ") [] "a.txt" = .ok "  ") ∧
    (jsTrim "  " = "") ∧
    processDocument 4 2 true (fun _ => Except.ok [1]) (fun _ => Except.error "x")
        (fun _ => "  ") [] "b1" [] "a.txt" [] =
      (⟨false, "b1", 0, 0, some "No text content extracted"⟩, []) :=
  ⟨by decide, by decide,
    (ingest_rejects_empty_text 4 2 (fun _ => Except.ok [1]) (fun _ => Except.error "x")
      (fun _ => "  ") [] "b1" [] "a.txt" [] "  " (by decide) (by decide)).1⟩

/-- NaN absorbs through the left argument of `jadd`. -/
theorem jadd_none_left (x : JSNum) : jadd none x = none := by
  cases x <;> rfl

/-- NaN absorbs through the right argument of `jadd`. -/
theorem jadd_none_right (x : JSNum) : jadd x none = none := by
  cases x <;> rfl

/-- NaN absorbs through the right argument of `jmul`. -/
theorem jmul_none_right (x : JSNum) : jmul x none = none := by
  cases x <;> rfl

/-- Once the dot-product accumulator is NaN it stays NaN. -/
theorem cosAcc_none_first (a b : List Rat) :
    ∀ (is : List Nat) (s : JSNum × JSNum × JSNum), s.1 = none →
      (cosAcc a b is s).1 = none := by
  intro is
  induction is with
  | nil => intro s hs; exact hs
  | cons i is ih =>
    intro s hs
    exact ih _ (by rw [hs, jadd_none_left])

/-- If some loop index reaches past the end of `b`, the dot product is NaN. -/
theorem cosAcc_mismatch (a b : List Rat) :
    ∀ (is : List Nat) (s : JSNum × JSNum × JSNum),
      (∃ i ∈ is, b.length ≤ i) → (cosAcc a b is s).1 = none := by
  intro is
  induction is with
  | nil => rintro s ⟨i, hi, _⟩; cases hi
  | cons i is ih =>
    rintro s ⟨i0, hi0, hle⟩
    rcases List.mem_cons.mp hi0 with h | h
    · subst h
      simp only [cosAcc]
      apply cosAcc_none_first
      show jadd s.1 (jmul _ b[i0]?) = none
      rw [List.getElem?_eq_none hle, jmul_none_right, jadd_none_right]
    · exact ih _ ⟨i0, h, hle⟩

/-- The loop reads `b` only at indices below the length of `a`. -/
theorem cosAcc_congr (a b1 b2 : List Rat) :
    ∀ (is : List Nat) (s : JSNum × JSNum × JSNum),
      (∀ i ∈ is, b1[i]? = b2[i]?) → cosAcc a b1 is s = cosAcc a b2 is s := by
  intro is
  induction is with
  | nil => intro s _; rfl
  | cons i is ih =>
    intro s h
    simp only [cosAcc]
    rw [h i (List.mem_cons_self _ _), ih _ (fun j hj => h j (List.mem_cons_of_mem _ hj))]

/-- No dimensionality check exists in similarity scoring: when the query
vector is longer than the stored vector the score is NaN (the loop reads past
the end of the stored vector), and when it is at most as long, the stored
vector's excess components are silently ignored. -/
theorem cosine_ignores_dimension_mismatch (sqrt : Rat → Rat) (a b : List Rat) :
    (b.length < a.length → cosineSimilarity sqrt a b = none) ∧
    (a.length ≤ b.length →
      cosineSimilarity sqrt a b = cosineSimilarity sqrt a (b.take a.length)) := by
  constructor
  · intro hlt
    have h1 : (cosAcc a b (List.range a.length) (some 0, some 0, some 0)).1 = none :=
      cosAcc_mismatch a b _ _ ⟨b.length, List.mem_range.mpr hlt, le_rfl⟩
    simp only [cosineSimilarity]
    rw [h1]
    rfl
  · intro hle
    have h2 : ∀ i ∈ List.range a.length, b[i]? = (b.take a.length)[i]? := by
      intro i hi
      rw [List.getElem?_take, if_pos (List.mem_range.mp hi)]
    simp only [cosineSimilarity]
    rw [cosAcc_congr a b (b.take a.length) (List.range a.length) _ h2]

/-- Witness for the amended dimension-mismatch behavior: a 3-dimensional
query against a 2-dimensional stored vector scores NaN; a 2-dimensional query
against a 3-dimensional stored vector ignores the third component. -/
theorem cosine_ignores_dimension_mismatch_witness :
    (([1, 0] : List Rat).length < ([1, 0, 0] : List Rat).length ∧
      cosineSimilarity (fun q => q) [1, 0, 0] [1, 0] = none) ∧
    (([1, 0] : List Rat).length ≤ ([1, 0, 7] : List Rat).length ∧
      cosineSimilarity (fun q => q) [1, 0] [1, 0, 7] =
        cosineSimilarity (fun q => q) [1, 0] (([1, 0, 7] : List Rat).take 2)) :=
  ⟨⟨by decide, (cosine_ignores_dimension_mismatch (fun q => q) [1, 0, 0] [1, 0]).1 (by decide)⟩,
   ⟨by decide, (cosine_ignores_dimension_mismatch (fun q => q) [1, 0] [1, 0, 7]).2 (by decide)⟩⟩

/-- The claim as stated is false: querying a store holding a 2-dimensional
chunk vector with a 3-dimensional query embedding does not abort; the call
returns a normal result whose single source carries a NaN score. -/
theorem dimension_mismatch_no_abort_cex :
    (queryDocuments (fun q => q) (fun _ => .ok [1, 0, 0]) (fun _ _ => .ok "ans") true 5
        [("doc1", [⟨0, ['h', 'i'], [1, 0], ⟨[], "f.txt", "doc1"⟩⟩])] "q" none none).result.isOk =
      true ∧
    (queryDocuments (fun q => q) (fun _ => .ok [1, 0, 0]) (fun _ _ => .ok "ans") true 5
        [("doc1", [⟨0, ['h', 'i'], [1, 0], ⟨[], "f.txt", "doc1"⟩⟩])] "q" none none).result =
      .ok ⟨"ans", [⟨"doc1", ['h', 'i'], 0, none⟩], "q"⟩ := by
  constructor
  · rfl
  · rfl

/-- Comparator value for two finitely scored chunks. -/
theorem jsCmp_some (x y : Chunk × JSNum) (qx qy : Rat)
    (hx : x.2 = some qx) (hy : y.2 = some qy) : jsCmp x y = qy - qx := by
  simp [jsCmp, jsub, hx, hy]

/-- A strictly positive comparator value forces both scores to be finite,
with the earlier element scoring strictly lower. -/
theorem jsCmp_pos_some (x y : Chunk × JSNum) (h : ¬ jsCmp x y ≤ 0) :
    ∃ qx qy, x.2 = some qx ∧ y.2 = some qy ∧ qx < qy := by
  cases hx : x.2 with
  | none =>
    exfalso; apply h
    cases hy : y.2 <;> simp [jsCmp, jsub, hx, hy]
  | some qx =>
    cases hy : y.2 with
    | none => exfalso; apply h; simp [jsCmp, jsub, hx, hy]
    | some qy =>
      refine ⟨qx, qy, rfl, rfl, ?_⟩
      rw [jsCmp_some x y qx qy hx hy] at h
      have := lt_of_not_le (fun hle : qy ≤ qx => h (by linarith))
      exact this

/-- Elements of an insertion are the inserted element or old elements. -/
theorem jsInsert_mem (x : Chunk × JSNum) (l : List (Chunk × JSNum))
    (z : Chunk × JSNum) (hz : z ∈ jsInsert x l) : z = x ∨ z ∈ l := by
  induction l with
  | nil => simpa [jsInsert] using hz
  | cons y ys ih =>
    unfold jsInsert at hz
    split at hz
    · rcases List.mem_cons.mp hz with h | h
      · exact Or.inl h
      · exact Or.inr h
    · rcases List.mem_cons.mp hz with h | h
      · exact Or.inr (h ▸ List.mem_cons_self _ _)
      · rcases ih h with h2 | h2
        · exact Or.inl h2
        · exact Or.inr (List.mem_cons_of_mem _ h2)

/-- Insertion of a finitely scored element into a descending list of finitely
scored elements stays descending. -/
theorem jsInsert_pairwise (x : Chunk × JSNum) (l : List (Chunk × JSNum))
    (hx : x.2.isSome = true) (hl : ∀ p ∈ l, p.2.isSome = true)
    (hs : l.Pairwise (fun a b => scoreVal b ≤ scoreVal a)) :
    (jsInsert x l).Pairwise (fun a b => scoreVal b ≤ scoreVal a) := by
  induction l with
  | nil => simp [jsInsert]
  | cons y ys ih =>
    obtain ⟨qx, hqx⟩ := Option.isSome_iff_exists.mp hx
    obtain ⟨qy, hqy⟩ := Option.isSome_iff_exists.mp (hl y (List.mem_cons_self _ _))
    unfold jsInsert
    split
    · next hcmp =>
      rw [jsCmp_some x y qx qy hqx hqy] at hcmp
      have hyx : scoreVal y ≤ scoreVal x := by
        simp [scoreVal, hqx, hqy]; linarith
      refine List.Pairwise.cons ?_ hs
      intro z hz
      rcases List.mem_cons.mp hz with h | h
      · exact h ▸ hyx
      · exact le_trans (List.rel_of_pairwise_cons hs h) hyx
    · next hcmp =>
      obtain ⟨qx2, qy2, hqx2, hqy2, hlt⟩ := jsCmp_pos_some x y hcmp
      refine List.Pairwise.cons ?_ (ih (fun p hp => hl p (List.mem_cons_of_mem _ hp))
        (List.Pairwise.sublist (List.sublist_cons_self _ _) hs))
      intro z hz
      rcases jsInsert_mem x ys z hz with h | h
      · subst h
        simp [scoreVal, hqx2, hqy2]
        linarith
      · exact List.rel_of_pairwise_cons hs h

/-- Elements of the sorted list come from the input list. -/
theorem jsSortScored_mem (l : List (Chunk × JSNum)) (z : Chunk × JSNum)
    (hz : z ∈ jsSortScored l) : z ∈ l := by
  induction l with
  | nil => simpa [jsSortScored] using hz
  | cons x xs ih =>
    rcases jsInsert_mem x (jsSortScored xs) z hz with h | h
    · exact h ▸ List.mem_cons_self _ _
    · exact List.mem_cons_of_mem _ (ih h)

/-- The sort of a finitely scored list is descending by score. -/
theorem jsSortScored_pairwise (l : List (Chunk × JSNum))
    (hl : ∀ p ∈ l, p.2.isSome = true) :
    (jsSortScored l).Pairwise (fun a b => scoreVal b ≤ scoreVal a) := by
  induction l with
  | nil => simp [jsSortScored]
  | cons x xs ih =>
    exact jsInsert_pairwise x (jsSortScored xs) (hl x (List.mem_cons_self _ _))
      (fun p hp => hl p (List.mem_cons_of_mem _ (jsSortScored_mem xs p hp)))
      (ih (fun p hp => hl p (List.mem_cons_of_mem _ hp)))

/-- Inserting an element whose score equals the filter key puts it exactly in
front of the survivors: every element the insertion walks past has a strictly
greater finite score, hence a different score value. -/
theorem jsInsert_filter_pos (x : Chunk × JSNum) (l : List (Chunk × JSNum))
    (q : JSNum) (hx : x.2 = q) :
    (jsInsert x l).filter (fun p => decide (p.2 = q)) =
      x :: l.filter (fun p => decide (p.2 = q)) := by
  induction l with
  | nil => simp [jsInsert, hx]
  | cons y ys ih =>
    unfold jsInsert
    split
    · simp [List.filter_cons, hx]
    · next hcmp =>
      obtain ⟨qx, qy, hqx, hqy, hlt⟩ := jsCmp_pos_some x y hcmp
      have hyq : ¬ (y.2 = q) := by
        rw [hqy, ← hx, hqx]
        intro h
        rw [Option.some_inj] at h
        exact absurd h.symm (ne_of_lt hlt)
      simp only [List.filter_cons, decide_eq_true_eq]
      rw [if_neg hyq, if_neg hyq]
      exact ih

/-- Inserting an element whose score differs from the filter key leaves the
filtered sublist unchanged. -/
theorem jsInsert_filter_neg (x : Chunk × JSNum) (l : List (Chunk × JSNum))
    (q : JSNum) (hx : ¬ (x.2 = q)) :
    (jsInsert x l).filter (fun p => decide (p.2 = q)) =
      l.filter (fun p => decide (p.2 = q)) := by
  induction l with
  | nil => simp [jsInsert, hx]
  | cons y ys ih =>
    unfold jsInsert
    split
    · simp only [List.filter_cons, decide_eq_true_eq]
      rw [if_neg hx]
    · simp only [List.filter_cons, decide_eq_true_eq]
      by_cases hy : y.2 = q
      · rw [if_pos hy, if_pos hy, ih]
      · rw [if_neg hy, if_neg hy, ih]

/-- Stability of the sort: for every score value, the sublist of elements
with that score is unchanged, so equal scores keep their original order and
the sorted list is a permutation of the input. -/
theorem jsSortScored_filter (l : List (Chunk × JSNum)) (q : JSNum) :
    (jsSortScored l).filter (fun p => decide (p.2 = q)) =
      l.filter (fun p => decide (p.2 = q)) := by
  induction l with
  | nil => rfl
  | cons x xs ih =>
    show (jsInsert x (jsSortScored xs)).filter _ = _
    by_cases hx : x.2 = q
    · rw [jsInsert_filter_pos x _ q hx, ih]
      simp [List.filter_cons, hx]
    · rw [jsInsert_filter_neg x _ q hx, ih]
      simp [List.filter_cons, hx]

/-- Insertion grows the length by one. -/
theorem jsInsert_length (x : Chunk × JSNum) (l : List (Chunk × JSNum)) :
    (jsInsert x l).length = l.length + 1 := by
  induction l with
  | nil => rfl
  | cons y ys ih =>
    unfold jsInsert
    split
    · simp
    · simp [ih]

/-- The sort preserves length. -/
theorem jsSortScored_length (l : List (Chunk × JSNum)) :
    (jsSortScored l).length = l.length := by
  induction l with
  | nil => rfl
  | cons x xs ih =>
    show (jsInsert x (jsSortScored xs)).length = _
    rw [jsInsert_length, ih, List.length_cons]

/-- Retrieval ranking: for finitely scored candidates the code returns the
first min(k, n) elements of the stable descending sort of the candidates;
ties keep the original gathering order (the filter equation), and a `k` at
least the candidate count returns the whole sorted list. -/
theorem retrieval_returns_topk_stable (scored : List (Chunk × JSNum)) (k : Nat)
    (hne : scored ≠ []) (hk : 0 < k)
    (hsome : ∀ p ∈ scored, p.2.isSome = true) :
    topKChunks scored k = (jsSortScored scored).take (min k scored.length) ∧
    (jsSortScored scored).Pairwise (fun a b => scoreVal b ≤ scoreVal a) ∧
    (∀ q : JSNum, (jsSortScored scored).filter (fun p => decide (p.2 = q)) =
      scored.filter (fun p => decide (p.2 = q))) ∧
    (scored.length ≤ k → topKChunks scored k = jsSortScored scored) := by
  refine ⟨?_, jsSortScored_pairwise scored hsome, fun q => jsSortScored_filter scored q, ?_⟩
  · unfold topKChunks
    rcases le_total k scored.length with h | h
    · rw [min_eq_left h]
    · rw [min_eq_right h,
        List.take_of_length_le (by rw [jsSortScored_length]; exact h),
        List.take_of_length_le (by rw [jsSortScored_length])]
  · intro h
    unfold topKChunks
    rw [List.take_of_length_le (by rw [jsSortScored_length]; exact h)]

/-- Witness for retrieval ranking at the scores 0.9, 0.5, 0.8 of the spec
scenario with k = 2: the top chunks are those scored 0.9 then 0.8. -/
theorem retrieval_returns_topk_stable_witness :
    ([(⟨0, ['a'], [], ⟨[], "f", "b"⟩⟩, some ((9 : Rat)/10)),
      (⟨1, ['b'], [], ⟨[], "f", "b"⟩⟩, some ((1 : Rat)/2)),
      (⟨2, ['c'], [], ⟨[], "f", "b"⟩⟩, some ((4 : Rat)/5))] ≠
        ([] : List (Chunk × JSNum))) ∧
    (0 < 2) ∧
    (∀ p ∈ [(⟨0, ['a'], [], ⟨[], "f", "b"⟩⟩, some ((9 : Rat)/10)),
      (⟨1, ['b'], [], ⟨[], "f", "b"⟩⟩, some ((1 : Rat)/2)),
      (⟨2, ['c'], [], ⟨[], "f", "b"⟩⟩, some ((4 : Rat)/5))],
        (p : Chunk × JSNum).2.isSome = true) ∧
    (topKChunks [(⟨0, ['a'], [], ⟨[], "f", "b"⟩⟩, some ((9 : Rat)/10)),
        (⟨1, ['b'], [], ⟨[], "f", "b"⟩⟩, some ((1 : Rat)/2)),
        (⟨2, ['c'], [], ⟨[], "f", "b"⟩⟩, some ((4 : Rat)/5))] 2 =
      (jsSortScored [(⟨0, ['a'], [], ⟨[], "f", "b"⟩⟩, some ((9 : Rat)/10)),
        (⟨1, ['b'], [], ⟨[], "f", "b"⟩⟩, some ((1 : Rat)/2)),
        (⟨2, ['c'], [], ⟨[], "f", "b"⟩⟩, some ((4 : Rat)/5))]).take
          (min 2 ([(⟨0, ['a'], [], ⟨[], "f", "b"⟩⟩, some ((9 : Rat)/10)),
            (⟨1, ['b'], [], ⟨[], "f", "b"⟩⟩, some ((1 : Rat)/2)),
            (⟨2, ['c'], [], ⟨[], "f", "b"⟩⟩, some ((4 : Rat)/5))] :
              List (Chunk × JSNum)).length)) :=
  ⟨by decide, by decide, by decide,
    (retrieval_returns_topk_stable _ 2 (by decide) (by decide) (by decide)).1⟩

/-- With no candidate chunks, the query short-circuits: the canned answer is
returned with an empty source list, the question embedding was computed (one
embedding call) and no completion call is made. -/
theorem empty_candidates_short_circuit (sqrt : Rat → Rat)
    (embed : String → Except String (List Rat))
    (complete : String → String → Except String String)
    (defaultTopK : Nat) (store : Store) (question : String)
    (documentIds : Option (List String)) (topK : Option Nat) (v : List Rat)
    (hemb : embed question = .ok v)
    (hempty : gatherChunks store documentIds = []) :
    queryDocuments sqrt embed complete true defaultTopK store question documentIds topK =
      ⟨.ok ⟨cannedAnswer, [], question⟩, 1, 0⟩ := by
  simp [queryDocuments, hemb, hempty]

/-- Witness: querying an empty store returns the canned answer with no
sources and no completion call. -/
theorem empty_candidates_short_circuit_witness :
    ((fun (_ : String) => (Except.ok [] : Except String (List Rat))) "q" = .ok []) ∧
    (gatherChunks [] none = []) ∧
    queryDocuments (fun q => q) (fun _ => Except.ok []) (fun _ _ => Except.error "no") true 5
        [] "q" none none =
      ⟨.ok ⟨cannedAnswer, [], "q"⟩, 1, 0⟩ :=
  ⟨by decide, by decide,
    empty_candidates_short_circuit (fun q => q) (fun _ => Except.ok [])
      (fun _ _ => Except.error "no") 5 [] "q" none none [] (by decide) (by decide)⟩

/-- The question is embedded exactly once on every available-path query,
before the candidate check: even with zero candidates the embedding call
happens, while the completion call does not. -/
theorem query_embeds_exactly_once (sqrt : Rat → Rat)
    (embed : String → Except String (List Rat))
    (complete : String → String → Except String String)
    (defaultTopK : Nat) (store : Store) (question : String)
    (documentIds : Option (List String)) (topK : Option Nat) :
    (queryDocuments sqrt embed complete true defaultTopK store question documentIds
        topK).embedCalls = 1 ∧
    (gatherChunks store documentIds = [] →
      (queryDocuments sqrt embed complete true defaultTopK store question documentIds
          topK).completionCalls = 0) := by
  constructor
  · simp only [queryDocuments, if_neg (show ¬(true = false) by decide)]
    cases hemb : embed question with
    | error e => simp
    | ok v =>
      simp only []
      by_cases hlen : (gatherChunks store documentIds).length = 0
      · simp [hlen]
      · simp only [if_neg hlen]
        split <;> rfl
  · intro h
    simp [queryDocuments, h]
    split <;> rfl

/-- Witness: with an empty store the query makes exactly one embedding call
and zero completion calls. -/
theorem query_embeds_exactly_once_witness :
    (gatherChunks [] none = []) ∧
    ((queryDocuments (fun q => q) (fun _ => Except.ok []) (fun _ _ => Except.ok "a") true 5
        [] "q" none none).embedCalls = 1 ∧
      (gatherChunks [] none = [] →
        (queryDocuments (fun q => q) (fun _ => Except.ok []) (fun _ _ => Except.ok "a") true 5
            [] "q" none none).completionCalls = 0)) :=
  ⟨by decide,
    query_embeds_exactly_once (fun q => q) (fun _ => Except.ok []) (fun _ _ => Except.ok "a")
      5 [] "q" none none⟩

/-- Skipping an absent id in the candidate-gathering map changes nothing. -/
theorem flatten_map_skip_absent (store : Store) (ids1 ids2 : List String)
    (id0 : String) (h : storeGet store id0 = none) :
    ((ids1 ++ id0 :: ids2).map (fun i => (storeGet store i).getD [])).flatten =
      ((ids1 ++ ids2).map (fun i => (storeGet store i).getD [])).flatten := by
  induction ids1 with
  | nil => simp [h]
  | cons a t ih => simp only [List.cons_append, List.map_cons, List.flatten_cons, ih]

/-- The empty document-id filter behaves exactly like no filter (all chunks
of all documents are candidates), and an id absent from the store is
silently skipped from a filter that stays nonempty without it. -/
theorem empty_filter_and_absent_ids :
    (∀ (store : Store) (sqrt : Rat → Rat) (embed : String → Except String (List Rat))
      (complete : String → String → Except String String) (avail : Bool)
      (dK : Nat) (q : String) (tK : Option Nat),
      gatherChunks store (some []) = gatherChunks store none ∧
      queryDocuments sqrt embed complete avail dK store q (some []) tK =
        queryDocuments sqrt embed complete avail dK store q none tK) ∧
    (∀ (store : Store) (ids1 ids2 : List String) (id0 : String),
      storeGet store id0 = none → ids1 ++ ids2 ≠ [] →
      gatherChunks store (some (ids1 ++ id0 :: ids2)) =
        gatherChunks store (some (ids1 ++ ids2))) := by
  constructor
  · intro store sqrt embed complete avail dK q tK
    exact ⟨rfl, rfl⟩
  · intro store ids1 ids2 id0 h hne
    unfold gatherChunks
    dsimp only
    rw [if_pos (by simp), if_pos (List.length_pos.mpr hne)]
    exact flatten_map_skip_absent store ids1 ids2 id0 h

/-- Witness: filtering on an existing id plus an absent id gathers the same
candidates as filtering on the existing id alone. -/
theorem empty_filter_and_absent_ids_witness :
    (storeGet [("a", [⟨0, ['x'], [], ⟨[], "f", "a"⟩⟩])] "zzz" = none) ∧
    ((["a"] ++ []) ≠ ([] : List String)) ∧
    gatherChunks [("a", [⟨0, ['x'], [], ⟨[], "f", "a"⟩⟩])] (some (["a"] ++ "zzz" :: [])) =
      gatherChunks [("a", [⟨0, ['x'], [], ⟨[], "f", "a"⟩⟩])] (some (["a"] ++ [])) :=
  ⟨by decide, by decide,
    empty_filter_and_absent_ids.2 [("a", [⟨0, ['x'], [], ⟨[], "f", "a"⟩⟩])] ["a"] [] "zzz"
      (by decide) (by decide)⟩
